import Mathlib

/-
Verification development for `src/utils.rs` of the scidataflow repository:
content fingerprinting (`compute_md5`), directory grouping (`organize_by_dir`),
remote-name merging (`print_status`), the fixed-width status renderers
(`print_fixed_width`, `print_fixed_width_status`) and byte-size formatting
(`format_bytes`).

Machine integers are modelled as `Nat` with explicit reduction modulo `2^32`
(resp. `2^64`) where the Rust code relies on fixed-width arithmetic.  Files are
modelled by their byte content (`Option (List Nat)`, `none` = the file cannot
be opened).  Printing functions are modelled as pure functions returning the
list of printed lines; Rust's panicking slice indexing is modelled by
`Option`-valued lookups, so a result of `none` corresponds to a panic.
-/

set_option maxHeartbeats 1000000

set_option maxRecDepth 100000

/-- Modelled from the spec: `LocalStatusCode` lives in `src/data.rs`, which is
not in the provided sources.  Spec §3 describes it as a closed enumeration with
at minimum `{Current, Modified}`, open to additional variants (e.g. `Missing`);
`Missing` is included so that the classifier's fallback arm is inhabited. -/
inductive LocalStatusCode where
  | current
  | modified
  | missing
deriving DecidableEq, Repr, Fintype

/-- Modelled from the spec: `RemoteStatusCode` lives in `src/remote.rs`, which
is not in the provided sources.  Spec §3: "otherwise one of
`{Current, NotExists, MD5Mismatch}`"; these are also exactly the variants named
by the `match` in `print_fixed_width_status`. -/
inductive RemoteStatusCode where
  | current
  | notExists
  | md5Mismatch
deriving DecidableEq, Repr, Fintype

/-- Modelled from the spec: `StatusEntry` lives in `src/data.rs`, which is not
in the provided sources.  Spec §3 gives its fields: `tracked`, `local_status`,
`remote_status`, `cols`; these are exactly the fields `utils.rs` reads. -/
structure StatusEntry where
  tracked : Option Bool
  local_status : LocalStatusCode
  remote_status : Option RemoteStatusCode
  cols : Option (List String)
deriving DecidableEq, Repr

/-- Modelled from the spec: `Remote` lives in `src/remote.rs`, which is not in
the provided sources.  Spec §3: "the core only consumes its display name";
`utils.rs` only calls `remote.name()`. -/
structure Remote where
  name : String
deriving DecidableEq, Repr

/-! ## MD5 (model of the `md5` crate used by `compute_md5`)

32-bit words are `Nat` values kept below `2 ^ 32`; every operation reduces
modulo `4294967296`. -/

def M32 : Nat := 4294967296

def add32 (a b : Nat) : Nat := (a + b) % M32

def not32 (a : Nat) : Nat := 4294967295 - a % M32

/-- Left rotation of a 32-bit word.  Because the shifted-out high bits and the
wrapped-in low bits occupy disjoint bit ranges, bitwise `or` equals `+`. -/
def rotl32 (x s : Nat) : Nat := (x % M32) * 2 ^ s % M32 + x % M32 / 2 ^ (32 - s)

def md5F (b c d : Nat) : Nat := Nat.lor (Nat.land b c) (Nat.land (not32 b) d)

def md5G (b c d : Nat) : Nat := Nat.lor (Nat.land b d) (Nat.land c (not32 d))

def md5H (b c d : Nat) : Nat := Nat.xor (Nat.xor b c) d

def md5I (b c d : Nat) : Nat := Nat.xor c (Nat.lor b (not32 d))

/-- The 64 round constants `K[i] = floor(abs(sin(i+1)) * 2^32)`. -/
def md5K : List Nat :=
  [0xd76aa478, 0xe8c7b756, 0x242070db, 0xc1bdceee,
   0xf57c0faf, 0x4787c62a, 0xa8304613, 0xfd469501,
   0x698098d8, 0x8b44f7af, 0xffff5bb1, 0x895cd7be,
   0x6b901122, 0xfd987193, 0xa679438e, 0x49b40821,
   0xf61e2562, 0xc040b340, 0x265e5a51, 0xe9b6c7aa,
   0xd62f105d, 0x02441453, 0xd8a1e681, 0xe7d3fbc8,
   0x21e1cde6, 0xc33707d6, 0xf4d50d87, 0x455a14ed,
   0xa9e3e905, 0xfcefa3f8, 0x676f02d9, 0x8d2a4c8a,
   0xfffa3942, 0x8771f681, 0x6d9d6122, 0xfde5380c,
   0xa4beea44, 0x4bdecfa9, 0xf6bb4b60, 0xbebfbc70,
   0x289b7ec6, 0xeaa127fa, 0xd4ef3085, 0x04881d05,
   0xd9d4d039, 0xe6db99e5, 0x1fa27cf8, 0xc4ac5665,
   0xf4292244, 0x432aff97, 0xab9423a7, 0xfc93a039,
   0x655b59c3, 0x8f0ccc92, 0xffeff47d, 0x85845dd1,
   0x6fa87e4f, 0xfe2ce6e0, 0xa3014314, 0x4e0811a1,
   0xf7537e82, 0xbd3af235, 0x2ad7d2bb, 0xeb86d391]

/-- The 64 per-round left-rotation amounts. -/
def md5S : List Nat :=
  [7, 12, 17, 22, 7, 12, 17, 22, 7, 12, 17, 22, 7, 12, 17, 22,
   5, 9, 14, 20, 5, 9, 14, 20, 5, 9, 14, 20, 5, 9, 14, 20,
   4, 11, 16, 23, 4, 11, 16, 23, 4, 11, 16, 23, 4, 11, 16, 23,
   6, 10, 15, 21, 6, 10, 15, 21, 6, 10, 15, 21, 6, 10, 15, 21]

def md5Round (m : List Nat) (st : Nat × Nat × Nat × Nat) (i : Nat) :
    Nat × Nat × Nat × Nat :=
  let (a, b, c, d) := st
  let fg : Nat × Nat :=
    if i < 16 then (md5F b c d, i)
    else if i < 32 then (md5G b c d, (5 * i + 1) % 16)
    else if i < 48 then (md5H b c d, (3 * i + 5) % 16)
    else (md5I b c d, 7 * i % 16)
  let tmp := add32 (add32 (add32 a fg.1) (md5K.getD i 0)) (m.getD fg.2 0)
  (d, add32 b (rotl32 tmp (md5S.getD i 0)), b, c)

/-- Process one 64-byte block: assemble the 16 little-endian message words,
run the 64 rounds, and add the result into the running state (mod `2^32`). -/
def processBlock (st : Nat × Nat × Nat × Nat) (block : List Nat) :
    Nat × Nat × Nat × Nat :=
  let m := (List.range 16).map fun j =>
    block.getD (4 * j) 0 + 256 * block.getD (4 * j + 1) 0 +
      65536 * block.getD (4 * j + 2) 0 + 16777216 * block.getD (4 * j + 3) 0
  let r := (List.range 64).foldl (md5Round m) st
  (add32 st.1 r.1, add32 st.2.1 r.2.1, add32 st.2.2.1 r.2.2.1,
    add32 st.2.2.2 r.2.2.2)

/-- Model of `md5::Context`: the running 32-bit state quadruple, the partial
block not yet processed (always shorter than 64 bytes), and the total number
of consumed bytes (used for the length padding). -/
structure Md5Context where
  state : Nat × Nat × Nat × Nat
  buffer : List Nat
  length : Nat
deriving DecidableEq, Repr

def md5Init : Md5Context :=
  ⟨(0x67452301, 0xefcdab89, 0x98badcfe, 0x10325476), [], 0⟩

/-- Feed one byte into the context; a full 64-byte buffer is compressed at
once.  The crate's `consume` processes the same block boundaries when handed
byte slices of any size, so folding this over a slice yields exactly the
crate's resulting context. -/
def md5ConsumeByte (ctx : Md5Context) (b : Nat) : Md5Context :=
  let buf := ctx.buffer ++ [b]
  if buf.length = 64 then ⟨processBlock ctx.state buf, [], ctx.length + 1⟩
  else ⟨ctx.state, buf, ctx.length + 1⟩

/-- Model of `md5::Context::consume`. -/
def md5Consume (ctx : Md5Context) (bytes : List Nat) : Md5Context :=
  bytes.foldl md5ConsumeByte ctx

def hexDigit (n : Nat) : Char :=
  if n < 10 then Char.ofNat (48 + n) else Char.ofNat (87 + n)

def byteHex (b : Nat) : List Char := [hexDigit (b / 16), hexDigit (b % 16)]

/-- Lowercase hex rendering of one 32-bit word, least significant byte first
(MD5 digests are serialized little-endian). -/
def wordHex (w : Nat) : List Char :=
  byteHex (w % 256) ++ byteHex (w / 256 % 256) ++ byteHex (w / 65536 % 256) ++
    byteHex (w / 16777216 % 256)

/-- Model of `md5::Context::compute` followed by `format!("{:x}", _)`:
append the `0x80`-and-zeros padding and the 64-bit little-endian bit length,
compress, and print the final state as 32 lowercase hex digits. -/
def md5Final (ctx : Md5Context) : String :=
  let bitLen := ctx.length * 8 % 2 ^ 64
  let padZeros := (119 - ctx.buffer.length) % 64
  let lenBytes := (List.range 8).map fun j => bitLen / 256 ^ j % 256
  let final := md5Consume ctx (0x80 :: List.replicate padZeros 0 ++ lenBytes)
  String.mk (wordHex final.state.1 ++ wordHex final.state.2.1 ++
    wordHex final.state.2.2.1 ++ wordHex final.state.2.2.2)

/-- One-shot digest of a whole byte sequence. -/
def md5Hex (content : List Nat) : String := md5Final (md5Consume md5Init content)

/-- The read loop of `compute_md5`: read up to `BUFFER_SIZE = 1024` bytes at a
time, feeding each chunk into the context, until EOF. -/
def md5ReadLoop : Md5Context → List Nat → Md5Context
  | ctx, [] => ctx
  | ctx, b :: rest =>
    md5ReadLoop (md5Consume ctx ((b :: rest).take 1024)) ((b :: rest).drop 1024)
termination_by _ rest => rest.length
decreasing_by
  simp only [List.length_drop, List.length_cons]
  omega

/-- Model of `compute_md5` (src/utils.rs lines 45-68).  The file is modelled
by its content: `none` = `File::open` fails (the file does not exist /
cannot be opened), in which case the function returns `Ok(None)`; otherwise
the content is read in 1024-byte chunks and digested incrementally.  The
claims considered here involve no mid-stream read error, so the `Except`
error branch of the source is never taken by the model. -/
def compute_md5 (file : Option (List Nat)) : Except String (Option String) :=
  match file with
  | none => Except.ok none
  | some content => Except.ok (some (md5Final (md5ReadLoop md5Init content)))

/-! ## Display width (model of the `unicode_width` crate) -/

/-- Model of `unicode_width`'s per-character East-Asian display width, on the
character classes exercised here: combining diacritical marks have width 0,
wide/fullwidth East-Asian ranges have width 2, everything else width 1.  (The
crate's full table covers more ranges; the extra ranges are irrelevant to the
strings appearing in this development.) -/
def charWidth (c : Char) : Nat :=
  let n := c.toNat
  if 0x300 ≤ n ∧ n ≤ 0x36F then 0
  else if (0x1100 ≤ n ∧ n ≤ 0x115F) ∨ (0x2E80 ≤ n ∧ n ≤ 0x303E) ∨
      (0x3041 ≤ n ∧ n ≤ 0x33FF) ∨ (0x3400 ≤ n ∧ n ≤ 0x4DBF) ∨
      (0x4E00 ≤ n ∧ n ≤ 0x9FFF) ∨ (0xA000 ≤ n ∧ n ≤ 0xA4CF) ∨
      (0xAC00 ≤ n ∧ n ≤ 0xD7A3) ∨ (0xF900 ≤ n ∧ n ≤ 0xFAFF) ∨
      (0xFE30 ≤ n ∧ n ≤ 0xFE4F) ∨ (0xFF00 ≤ n ∧ n ≤ 0xFF60) ∨
      (0xFFE0 ≤ n ∧ n ≤ 0xFFE6) ∨ (0x20000 ≤ n ∧ n ≤ 0x2FFFD) ∨
      (0x30000 ≤ n ∧ n ≤ 0x3FFFD) then 2
  else 1

/-- Model of `UnicodeWidthStr::width` (`col.width()` in the source): the sum
of the display widths of the string's characters. -/
def dispWidth (s : String) : Nat := (s.data.map charWidth).sum

/-- Model of Rust's `format!("{:width$}", col)` on strings: left-aligned,
space-filled.  `Formatter::pad` counts *characters* (`chars().count()`), not
display width, so the pad amount is `width - s.length` in characters. -/
def padCell (s : String) (w : Nat) : String :=
  s ++ String.mk (List.replicate (w - s.length) ' ')

/-! ## Colors (model of the `colored` crate) -/

/-- The four colors applied by `print_fixed_width_status`. -/
inductive Color where
  | green
  | cyan
  | yellow
  | red
deriving DecidableEq, Repr, Fintype

/-- Model of `colored`'s `.green()/.cyan()/.yellow()/.red()` string methods:
wrap in the ANSI SGR escape sequence. -/
def applyColor (c : Color) (s : String) : String :=
  let code : String :=
    match c with
    | Color.green => "32"
    | Color.cyan => "36"
    | Color.yellow => "33"
    | Color.red => "31"
  "\x1b[" ++ code ++ "m" ++ s ++ "\x1b[0m"

/-- Model of `colored`'s `.bold()` (applied to group keys). -/
def boldStr (s : String) : String := "\x1b[1m" ++ s ++ "\x1b[0m"

/-- The row-coloring `match` of `print_fixed_width_status`
(src/utils.rs lines 176-192), extracted as a function of the
`(tracked, local_status, remote_status)` triple.  Arms are listed in source
order; like Rust's `match`, Lean's `match` takes the first matching arm. -/
def lineColor (tracked : Option Bool) (local_status : LocalStatusCode)
    (remote_status : Option RemoteStatusCode) : Color :=
  match tracked, local_status, remote_status with
  | some true, LocalStatusCode.current, some RemoteStatusCode.current => Color.green
  | some true, LocalStatusCode.current, none => Color.green
  | some false, LocalStatusCode.current, some RemoteStatusCode.current => Color.cyan
  | some false, LocalStatusCode.current, none => Color.yellow
  | some false, LocalStatusCode.current, some RemoteStatusCode.notExists => Color.yellow
  | none, LocalStatusCode.current, none => Color.green
  | some true, LocalStatusCode.modified, _ => Color.red
  | some false, LocalStatusCode.modified, _ => Color.red
  | some true, LocalStatusCode.current, some RemoteStatusCode.notExists => Color.yellow
  | some true, LocalStatusCode.current, some RemoteStatusCode.md5Mismatch => Color.yellow
  | some false, LocalStatusCode.current, _ => Color.green
  | _, _, _ => Color.cyan

/-- The disjunction of the eleven explicit (non-wildcard-fallback) arm
patterns of the coloring `match`, in source order.  A triple satisfies this
exactly when some arm other than the final `_ => cyan` fallback matches it. -/
def matchesExplicitArm (tracked : Option Bool) (local_status : LocalStatusCode)
    (remote_status : Option RemoteStatusCode) : Prop :=
  (tracked = some true ∧ local_status = LocalStatusCode.current ∧
    remote_status = some RemoteStatusCode.current) ∨
  (tracked = some true ∧ local_status = LocalStatusCode.current ∧
    remote_status = none) ∨
  (tracked = some false ∧ local_status = LocalStatusCode.current ∧
    remote_status = some RemoteStatusCode.current) ∨
  (tracked = some false ∧ local_status = LocalStatusCode.current ∧
    remote_status = none) ∨
  (tracked = some false ∧ local_status = LocalStatusCode.current ∧
    remote_status = some RemoteStatusCode.notExists) ∨
  (tracked = none ∧ local_status = LocalStatusCode.current ∧
    remote_status = none) ∨
  (tracked = some true ∧ local_status = LocalStatusCode.modified) ∨
  (tracked = some false ∧ local_status = LocalStatusCode.modified) ∨
  (tracked = some true ∧ local_status = LocalStatusCode.current ∧
    remote_status = some RemoteStatusCode.notExists) ∨
  (tracked = some true ∧ local_status = LocalStatusCode.current ∧
    remote_status = some RemoteStatusCode.md5Mismatch) ∨
  (tracked = some false ∧ local_status = LocalStatusCode.current)

instance (t : Option Bool) (l : LocalStatusCode) (r : Option RemoteStatusCode) :
    Decidable (matchesExplicitArm t l r) := by
  unfold matchesExplicitArm
  infer_instance

/-! ## Association-list models of `HashMap` and `BTreeMap`

A `HashMap` is modelled as a list of key-value pairs in its (arbitrary)
iteration order, a `BTreeMap` as a list kept sorted by key. -/

/-- First-match key lookup in an association list (`HashMap::get` /
`BTreeMap::get`). -/
def lookupAL {α : Type} (m : List (String × α)) (k : String) : Option α :=
  match m with
  | [] => none
  | (k', v) :: rest => if k = k' then some v else lookupAL rest k

/-- `BTreeMap::entry(k).or_default().push(e)`: insert `e` at the end of the
list stored under `k`, keeping the map sorted by key. -/
def btreeInsertAppend (m : List (String × List StatusEntry)) (k : String)
    (e : StatusEntry) : List (String × List StatusEntry) :=
  match m with
  | [] => [(k, [e])]
  | (k', v) :: rest =>
    if k = k' then (k', v ++ [e]) :: rest
    else if k < k' then (k, [e]) :: (k', v) :: rest
    else (k', v) :: btreeInsertAppend rest k e

/-- `BTreeMap::insert(k, v)`: insert or replace, keeping the map sorted. -/
def btreeInsert (m : List (String × List StatusEntry)) (k : String)
    (v : List StatusEntry) : List (String × List StatusEntry) :=
  match m with
  | [] => [(k, v)]
  | (k', v') :: rest =>
    if k = k' then (k, v) :: rest
    else if k < k' then (k, v) :: (k', v') :: rest
    else (k', v') :: btreeInsert rest k v

/-! ## Path parent (model of Rust's `std::path::Path::parent` on Unix) -/

/-- Split a character list on `'/'` (the resulting segments exclude the
separators; adjacent separators produce empty segments). -/
def splitSegs : List Char → List (List Char)
  | [] => [[]]
  | c :: rest =>
    let segs := splitSegs rest
    if c = '/' then [] :: segs
    else
      match segs with
      | [] => [[c]]
      | s :: ss => (c :: s) :: ss

/-- Lexical model of `Path::new(s).parent().map(|p| p.to_string_lossy())` on
Unix paths.  Rust's components normalization drops empty segments and `"."`
segments (a leading `"."` of a relative path is kept as a `CurDir`
component); `parent` returns `None` when there is no component or when the
only component is the root `"/"`, and otherwise the path without its last
component.  In particular, a non-empty path with no separator at all has
parent `Some("")`. -/
def pathParent (s : String) : Option String :=
  let chars := s.data
  let hasRoot := chars.head? = some '/'
  let raw := (splitSegs chars).filter fun seg => seg ≠ []
  let segs :=
    if hasRoot then raw.filter fun seg => seg ≠ ['.']
    else
      match raw with
      | [] => []
      | first :: rest =>
        if first = ['.'] then first :: rest.filter (fun seg => seg ≠ ['.'])
        else (first :: rest).filter fun seg => seg ≠ ['.']
  if segs = [] then none
  else
    some (String.mk ((if hasRoot then ['/'] else []) ++
      List.intercalate ['/'] segs.dropLast))

/-- The loop body of `organize_by_dir`: an entry with present, non-empty
`cols` whose first column has a parent directory is appended to that
directory's group; every other entry leaves the map unchanged. -/
def orgStep (m : List (String × List StatusEntry)) (e : StatusEntry) :
    List (String × List StatusEntry) :=
  match e.cols with
  | some (first :: _) =>
    match pathParent first with
    | some dir => btreeInsertAppend m dir e
    | none => m
  | _ => m

/-- Model of `organize_by_dir` (src/utils.rs lines 199-214): group entries by
the parent directory of their first display column.  Entries with `None`
cols, an empty cols vector, or a first column whose `parent()` is `None` are
skipped. -/
def organize_by_dir (rows : List StatusEntry) : List (String × List StatusEntry) :=
  rows.foldl orgStep []

/-- The key-rewriting step of `print_status` (src/utils.rs lines 222-236): a
group key with a matching remote becomes `"<key> > <remote-name>"`, other
keys are kept. -/
def rewriteKey (rm : List (String × Remote)) (k : String) : String :=
  match lookupAL rm k with
  | some r => k ++ " > " ++ r.name
  | none => k

/-- The `rows_by_dir` map built by `print_status`: with a remote mapping,
re-insert every group under its rewritten key into a fresh `BTreeMap`;
without one, the organized map is used as-is. -/
def statusGroups (organized : List (String × List StatusEntry))
    (remote : Option (List (String × Remote))) : List (String × List StatusEntry) :=
  match remote with
  | some rm => organized.foldl (fun acc kv => btreeInsert acc (rewriteKey rm kv.1) kv.2) []
  | none => organized

/-! ## Fixed-width renderers -/

/-- All entries across all groups, in map iteration order then row order
(`rows.values().flat_map(|v| v.iter())`). -/
def allEntries (rows : List (String × List StatusEntry)) : List StatusEntry :=
  (rows.map Prod.snd).flatten

/-- `max_cols`: the maximum number of display columns over all entries whose
`cols` is present (`.max().unwrap_or(0)`). -/
def maxCols (rows : List (String × List StatusEntry)) : Nat :=
  ((allEntries rows).filterMap fun e => e.cols.map List.length).foldl Nat.max 0

/-- The inner loop of the width computation: `max_lengths[i] =
max_lengths[i].max(col.width())` for each column of one entry.  Rust's
`max_lengths[i]` panics when out of bounds; the model returns `none` there. -/
def updWidths : List Nat → Nat → List String → Option (List Nat)
  | acc, _, [] => some acc
  | acc, i, c :: rest =>
    match acc.get? i with
    | none => none
    | some w => updWidths (acc.set i (Nat.max w (dispWidth c))) (i + 1) rest

/-- The `max_lengths` table: start from `vec![0; max_cols]` and fold the
width update over every entry (rows with `None` cols contribute nothing). -/
def computeWidthsAll (rows : List (String × List StatusEntry)) : Option (List Nat) :=
  (allEntries rows).foldlM
    (fun acc e =>
      match e.cols with
      | some cols => updWidths acc 0 cols
      | none => some acc)
    (List.replicate (maxCols rows) 0)

/-- The `fixed_row` cell vector of one row: each present column is padded to
`max_lengths[i]`; in the status variant (`lead = true`) a one-space spacer
precedes the first cell.  Rust's `max_lengths[i]` panics when out of bounds;
the model returns `none` there. -/
def buildCells (lead : Bool) (widths : List Nat) : Nat → List String → Option (List String)
  | _, [] => some []
  | i, c :: rest =>
    match widths.get? i with
    | none => none
    | some w =>
      match buildCells lead widths (i + 1) rest with
      | none => none
      | some others =>
        some (((if lead ∧ i = 0 then " " else "") ++ padCell c w) :: others)

/-- Apply an option-valued function to every element, failing as soon as one
application fails (sequencing in the `Option` monad); used to model loops in
which any Rust panic aborts the whole rendering. -/
def mapO {α β : Type} (f : α → Option β) : List α → Option (List β)
  | [] => some []
  | a :: rest =>
    match f a with
    | none => none
    | some b =>
      match mapO f rest with
      | none => none
      | some r => some (b :: r)

/-- One printed row of `print_fixed_width_status`: the cells joined by the
`nspaces`-space spacer, colored by the classification of the row's status
triple, preceded by the indent. -/
def rowLineStatus (widths : List Nat) (nspaces indent : Nat) (e : StatusEntry) :
    Option String :=
  match (match e.cols with
         | some cols => buildCells true widths 0 cols
         | none => some []) with
  | none => none
  | some cells =>
    let line := String.intercalate (String.mk (List.replicate nspaces ' ')) cells
    some (String.mk (List.replicate indent ' ') ++
      applyColor (lineColor e.tracked e.local_status e.remote_status) line)

/-- One group section of `print_fixed_width_status`: the bracketed (and, when
`color` is set, bolded) key header, the rows in their stored order, and the
trailing blank line. -/
def renderGroupStatus (widths : List Nat) (nspaces indent : Nat) (color : Bool)
    (kv : String × List StatusEntry) : Option (List String) :=
  match mapO (rowLineStatus widths nspaces indent) kv.2 with
  | none => none
  | some lines =>
    some (("[" ++ (if color then boldStr kv.1 else kv.1) ++ "]") :: lines ++ [""])

/-- Model of `print_fixed_width_status` (src/utils.rs lines 125-197) as the
list of printed lines.  The `rows` argument is the `BTreeMap` as a sorted
association list; `for (key, value) in &rows` iterates it in that (sorted)
order.  (The source also collects `rows.keys()` into a sorted `keys` vector
that it never uses.) -/
def printFixedWidthStatus (rows : List (String × List StatusEntry))
    (nspaces indent : Option Nat) (color : Bool) : Option (List String) :=
  match computeWidthsAll rows with
  | none => none
  | some ws =>
    match mapO (renderGroupStatus ws (nspaces.getD 6) (indent.getD 0) color) rows with
    | none => none
    | some sections => some sections.flatten

/-- One printed row of the generic `print_fixed_width`: like the status
variant but with no leading one-space spacer and no row coloring. -/
def rowLinePlain (widths : List Nat) (nspaces indent : Nat) (e : StatusEntry) :
    Option String :=
  match (match e.cols with
         | some cols => buildCells false widths 0 cols
         | none => some []) with
  | none => none
  | some cells =>
    some (String.mk (List.replicate indent ' ') ++
      String.intercalate (String.mk (List.replicate nspaces ' ')) cells)

/-- One group section of the generic `print_fixed_width`. -/
def renderGroupPlain (widths : List Nat) (nspaces indent : Nat) (color : Bool)
    (kv : String × List StatusEntry) : Option (List String) :=
  match mapO (rowLinePlain widths nspaces indent) kv.2 with
  | none => none
  | some lines =>
    some (("[" ++ (if color then boldStr kv.1 else kv.1) ++ "]") :: lines ++ [""])

/-- Model of `print_fixed_width` (src/utils.rs lines 70-121) as the list of
printed lines.  The `rows` argument is the `HashMap` as an association list
in its iteration order, which for a Rust `HashMap` is arbitrary; the loop
`for (key, value) in &rows` follows that order.  The sorted `keys` vector
computed on lines 96-97 is dead code: it is never consulted. -/
def printFixedWidth (rows : List (String × List StatusEntry))
    (nspaces indent : Option Nat) (color : Bool) : Option (List String) :=
  match computeWidthsAll rows with
  | none => none
  | some ws =>
    match mapO (renderGroupPlain ws (nspaces.getD 6) (indent.getD 0) color) rows with
    | none => none
    | some sections => some sections.flatten

/-- Model of `print_status` (src/utils.rs lines 216-239) as the list of
printed lines: the bold banner, the count line (whose trailing `\n` prints an
extra blank line), then the status table of the organized and key-rewritten
groups. -/
def printStatus (rows : List StatusEntry)
    (remote : Option (List (String × Remote))) : Option (List String) :=
  match printFixedWidthStatus (statusGroups (organize_by_dir rows) remote)
      none none true with
  | none => none
  | some body =>
    some (boldStr "Project data status:" ::
      (toString rows.length ++ " data file" ++
        (if rows.length > 1 then "s" else "") ++ " registered.") :: "" :: body)

/-! ## Byte-size formatting (`format_bytes`) -/

/-- `round(100 * num / den)` with ties to even, i.e. the integer whose
hundredth gives Rust's `format!("{:.2}", num as f64 / den as f64)` whenever
`num / den` is exactly representable in `f64` (here `den` is always a power
of two and the claims instantiate `num < 2^53`, so the division is exact and
Rust's correctly-rounded, ties-to-even decimal formatting agrees with this
exact rational rounding). -/
def round2 (num den : Nat) : Nat :=
  let t := 100 * num
  let q := t / den
  let r := t % den
  if 2 * r < den then q
  else if den < 2 * r then q + 1
  else if q % 2 = 0 then q else q + 1

/-- Render `num / den` with exactly two decimal places (the formatted
mantissa of `format!("{:.2} ..", ..)`). -/
def fmt2dec (num den : Nat) : String :=
  let v := round2 num den
  toString (v / 100) ++ "." ++ (if v % 100 < 10 then "0" else "") ++ toString (v % 100)

/-- Model of `format_bytes` (src/utils.rs lines 241-260).  The thresholds are
`BYTES_IN_MB = 2^20`, `BYTES_IN_GB = 2^30`, `BYTES_IN_TB = 2^40`,
`BYTES_IN_PB = 2^50`; all are exactly representable in `f64` and
`u64 as f64` rounding is monotone, so branch selection on exact `Nat` values
agrees with the source's `f64` comparisons for every `u64` input.  Note the
first branch divides by `BYTES_IN_KB = 1024` yet labels the result `"MB"`,
exactly as the source does. -/
def format_bytes (size : Nat) : String :=
  if size < 1048576 then fmt2dec size 1024 ++ " MB"
  else if size < 1073741824 then fmt2dec size 1048576 ++ " MB"
  else if size < 1099511627776 then fmt2dec size 1073741824 ++ " GB"
  else if size < 1125899906842624 then fmt2dec size 1099511627776 ++ " TB"
  else fmt2dec size 1125899906842624 ++ " PB"

/-- The unit suffix of a formatted size: the characters after the last space. -/
def unitOf (s : String) : String :=
  String.mk (s.data.reverse.takeWhile (fun c => c ≠ ' ')).reverse

/-! ## Concrete inputs used by witnesses and counterexamples -/

/-- A tracked, current entry with a bare filename (no separator) as its first
display column. -/
def entryBare : StatusEntry :=
  ⟨some true, LocalStatusCode.current, none, some ["data.csv"]⟩

/-- A tracked, fully synchronized entry under `data/`. -/
def entryData : StatusEntry :=
  ⟨some true, LocalStatusCode.current, some RemoteStatusCode.current,
    some ["data/a.csv", "100KB"]⟩

/-- An entry whose single display column contains two-column-wide East-Asian
characters (display width 4, character count 2). -/
def entryWide : StatusEntry :=
  ⟨some true, LocalStatusCode.current, none, some ["日本"]⟩

/-- An ASCII entry with the same display width as `entryWide`. -/
def entryAscii : StatusEntry :=
  ⟨some true, LocalStatusCode.current, none, some ["abcd"]⟩

/-- A minimal one-column entry. -/
def entryX : StatusEntry :=
  ⟨some true, LocalStatusCode.current, some RemoteStatusCode.current, some ["x"]⟩

/-- A two-column entry for the ragged-row witness. -/
def entryTwoCols : StatusEntry :=
  ⟨some true, LocalStatusCode.current, none, some ["d/a", "x"]⟩

/-- A one-column entry for the ragged-row witness. -/
def entryOneCol : StatusEntry :=
  ⟨some false, LocalStatusCode.modified, none, some ["d/b"]⟩

/-- An entry with absent `cols` for the ragged-row witness. -/
def entryNoCols : StatusEntry :=
  ⟨none, LocalStatusCode.current, none, none⟩

/-! ## MD5 lemmas -/

theorem md5Consume_append (ctx : Md5Context) (a b : List Nat) :
    md5Consume ctx (a ++ b) = md5Consume (md5Consume ctx a) b := by
  simp [md5Consume, List.foldl_append]

theorem md5ReadLoop_eq (ctx : Md5Context) (rest : List Nat) :
    md5ReadLoop ctx rest = md5Consume ctx rest := by
  induction ctx, rest using md5ReadLoop.induct with
  | case1 ctx => simp [md5ReadLoop, md5Consume]
  | case2 ctx b rest ih =>
    rw [md5ReadLoop, ih, ← md5Consume_append, List.take_append_drop]

theorem hexDigit_mem : ∀ n < 16, hexDigit n ∈ "0123456789abcdef".data := by decide

theorem byteHex_mem (b : Nat) (hb : b < 256) :
    ∀ c ∈ byteHex b, c ∈ "0123456789abcdef".data := by
  intro c hc
  have h1 : b / 16 < 16 := Nat.div_lt_of_lt_mul (by omega)
  have h2 : b % 16 < 16 := Nat.mod_lt _ (by omega)
  simp only [byteHex, List.mem_cons, List.not_mem_nil, or_false] at hc
  rcases hc with hc | hc
  · exact hc ▸ hexDigit_mem _ h1
  · exact hc ▸ hexDigit_mem _ h2

theorem wordHex_mem (w : Nat) :
    ∀ c ∈ wordHex w, c ∈ "0123456789abcdef".data := by
  intro c hc
  simp only [wordHex, List.mem_append] at hc
  rcases hc with ((hc | hc) | hc) | hc
  · exact byteHex_mem _ (Nat.mod_lt _ (by omega)) _ hc
  · exact byteHex_mem _ (Nat.mod_lt _ (by omega)) _ hc
  · exact byteHex_mem _ (Nat.mod_lt _ (by omega)) _ hc
  · exact byteHex_mem _ (Nat.mod_lt _ (by omega)) _ hc

theorem md5Final_length (ctx : Md5Context) : (md5Final ctx).length = 32 := by
  simp [md5Final, String.length, wordHex, byteHex]

theorem md5Final_hex (ctx : Md5Context) :
    ∀ c ∈ (md5Final ctx).data, c ∈ "0123456789abcdef".data := by
  intro c hc
  simp only [md5Final, String.mk, List.mem_append] at hc
  rcases hc with ((hc | hc) | hc) | hc <;> exact wordHex_mem _ _ hc

/-! ## Claims C1 and C6: `compute_md5` -/

/-- C1: the claim (and the source's own doc comment, line 44: "Compute the
MD5 of a file returning None if the file is empty") says that a file whose
content is the empty byte sequence yields `Ok(None)`.  The code, however,
only returns `Ok(None)` when `File::open` fails; an existing, readable,
empty file opens fine, the read loop exits on the first `Ok(0)`, and the
function returns `Ok(Some(_))` with the digest of the empty byte sequence
(`d41d8cd98f00b204e9800998ecf8427e`) — not `Ok(None)`. -/
theorem c1_compute_md5_empty_file :
    compute_md5 (some []) =
      Except.ok (some "d41d8cd98f00b204e9800998ecf8427e") ∧
    compute_md5 (some []) ≠ Except.ok none := by
  have h : compute_md5 (some []) =
      Except.ok (some (md5Final (md5Consume md5Init []))) := by
    simp [compute_md5, md5ReadLoop_eq]
  have hs : md5Final (md5Consume md5Init []) =
      "d41d8cd98f00b204e9800998ecf8427e" := by decide
  constructor
  · rw [h, hs]
  · rw [h]
    simp

/-- C6: for every non-empty, fully readable content, `compute_md5` returns
`Ok(Some(digest))` where the digest is exactly the one-shot MD5 of the whole
content (`md5Hex`): splitting the content into the fixed 1024-byte read
chunks and digesting incrementally changes nothing.  The digest is a 32
character lowercase hexadecimal string. -/
theorem c6_compute_md5_chunked_eq_whole (content : List Nat)
    (hne : content ≠ []) :
    compute_md5 (some content) = Except.ok (some (md5Hex content)) ∧
    (md5Hex content).length = 32 ∧
    ∀ c ∈ (md5Hex content).data, c ∈ "0123456789abcdef".data := by
  refine ⟨?_, md5Final_length _, md5Final_hex _⟩
  simp [compute_md5, md5ReadLoop_eq, md5Hex]

/-- Witness for C6 at the concrete content `"abc"` (bytes `[97, 98, 99]`):
the chunked digest equals the one-shot digest, whose value is the standard
MD5 test vector `900150983cd24fb0d6963f7d28e17f72`. -/
theorem c6_compute_md5_chunked_eq_whole_witness :
    compute_md5 (some [97, 98, 99]) =
      Except.ok (some (md5Hex [97, 98, 99])) ∧
    md5Hex [97, 98, 99] = "900150983cd24fb0d6963f7d28e17f72" :=
  ⟨(c6_compute_md5_chunked_eq_whole [97, 98, 99] (by decide)).1, by decide⟩

/-! ## Claims C2 and C5: the status classifier -/

/-- C2, counterexample: the claim says an untracked (`Some(false)`), locally
`Current` entry with a remote status other than `Current`/absent/`NotExists`
(i.e. `MD5Mismatch`) is colored yellow (caution).  In the source, the arm
`(Some(false), LocalStatusCode::Current, _)` on line 190 matches first and
colors it green. -/
theorem c2_untracked_md5mismatch_not_yellow :
    lineColor (some false) LocalStatusCode.current
        (some RemoteStatusCode.md5Mismatch) ≠ Color.yellow ∧
    lineColor (some false) LocalStatusCode.current
        (some RemoteStatusCode.md5Mismatch) = Color.green := by
  decide

/-- C2, amended: for every remote status other than `Current` and
`NotExists`, an untracked (`Some(false)`), locally `Current` entry is
assigned the green (Ok) severity by the catch-all arm
`(Some(false), Current, _)`, not the caution (yellow) severity. -/
theorem c2_untracked_other_remote_green (r : RemoteStatusCode)
    (h1 : r ≠ RemoteStatusCode.current) (h2 : r ≠ RemoteStatusCode.notExists) :
    lineColor (some false) LocalStatusCode.current (some r) = Color.green := by
  cases r
  · exact absurd rfl h1
  · exact absurd rfl h2
  · rfl

/-- Witness for the amended C2 at `r = MD5Mismatch`. -/
theorem c2_untracked_other_remote_green_witness :
    lineColor (some false) LocalStatusCode.current
      (some RemoteStatusCode.md5Mismatch) = Color.green :=
  c2_untracked_other_remote_green RemoteStatusCode.md5Mismatch
    (by decide) (by decide)

/-- C5: the classifier is a total function (in this model `lineColor` is a
Lean function, so it produces exactly one color for every triple and cannot
fail), and every triple matched by none of the eleven explicit arms falls
through to the `_ => cyan` (Ambiguous) fallback. -/
theorem c5_classifier_total_fallback :
    ∀ (t : Option Bool) (l : LocalStatusCode) (r : Option RemoteStatusCode),
      ¬ matchesExplicitArm t l r → lineColor t l r = Color.cyan := by
  decide

/-- Witness for C5 at the concrete unmatched triple
`(absent, Modified, absent)`: no explicit arm matches it and the classifier
yields cyan. -/
theorem c5_classifier_total_fallback_witness :
    ¬ matchesExplicitArm none LocalStatusCode.modified none ∧
    lineColor none LocalStatusCode.modified none = Color.cyan :=
  ⟨by decide, c5_classifier_total_fallback none LocalStatusCode.modified none
    (by decide)⟩

/-! ## Claim C4: padding metric vs. width metric -/

/-- C4: the column width table is computed from *display* widths
(`col.width()`, here `dispWidth`), but the cell is padded by Rust's
`format!("{:width$}")`, which counts *characters*.  For the group
`[entryWide, entryAscii]` the single column's width is `4` (both cells have
display width 4), yet the rendered cell for `"日本"` (character count 2, so
it receives 2 pad spaces after the 1-space lead) has display width 7, not
the `1 + 4 = 5` the claim implies — the rendered cell's display width does
not equal the column's maximum display width. -/
theorem c4_wide_char_padding_eval :
    computeWidthsAll [("g", [entryWide, entryAscii])] = some [4] ∧
    dispWidth "日本" = 4 ∧
    buildCells true [4] 0 ["日本"] = some [" 日本  "] ∧
    dispWidth " 日本  " = 7 ∧
    dispWidth " 日本  " ≠ 1 + 4 := by
  refine ⟨by decide, by decide, by decide, by decide, by decide⟩

/-! ## Claim C8: group emission order of `print_fixed_width` -/

/-- C8: `print_fixed_width` collects and sorts `rows.keys()` (lines 96-97 of
the source) but then iterates `&rows` — the `HashMap` itself, in its arbitrary
iteration order — so the emitted sections follow the map's iteration order,
not ascending key order.  Evaluating the model at a map whose iteration
order is `["b", "a"]` emits the `[b]` section before the `[a]` section;
sorted-order emission would produce the second list. -/
theorem c8_hashmap_iteration_order_eval :
    printFixedWidth [("b", [entryX]), ("a", [entryX])] none none false =
      some ["[b]", "x", "", "[a]", "x", ""] ∧
    printFixedWidth [("b", [entryX]), ("a", [entryX])] none none false ≠
      some ["[a]", "x", "", "[b]", "x", ""] := by
  refine ⟨by decide, by decide⟩

/-! ## Claim C3: grouping of bare filenames -/

/-- C3, counterexample: the claim says an entry whose first display column
has no path separator is excluded from the grouping entirely.  In fact
`Path::new("data.csv").parent()` is `Some("")` (Rust returns `None` only for
the empty string and root/prefix-only paths), so `entryBare` lands in the
group keyed by the empty string instead of being dropped. -/
theorem c3_bare_filename_not_dropped :
    organize_by_dir [entryBare] = [("", [entryBare])] ∧
    entryBare ∈ (lookupAL (organize_by_dir [entryBare]) "").getD [] := by
  refine ⟨by decide, by decide⟩

/-! ## Claim C10: `format_bytes` -/

theorem takeWhile_append_cons {α : Type} (p : α → Bool) (l1 : List α) (x : α)
    (l2 : List α) (h1 : ∀ a ∈ l1, p a = true) (h2 : p x = false) :
    (l1 ++ x :: l2).takeWhile p = l1 := by
  induction l1 with
  | nil => simp [List.takeWhile_cons, h2]
  | cons a l ih =>
    have ha : p a = true := h1 a (by simp)
    simp only [List.cons_append, List.takeWhile_cons, ha, if_true]
    rw [ih fun b hb => h1 b (by simp [hb])]

theorem unitOf_space_append (s : String) (u : List Char)
    (h : ∀ c ∈ u, decide (c ≠ ' ') = true) :
    unitOf (s ++ String.mk (' ' :: u)) = String.mk u := by
  unfold unitOf
  rw [String.data_append]
  show String.mk ((s.data ++ ' ' :: u).reverse.takeWhile _).reverse = _
  rw [List.reverse_append, List.reverse_cons, List.append_assoc]
  have hsp : [' '] ++ s.data.reverse = ' ' :: s.data.reverse := rfl
  rw [hsp, takeWhile_append_cons _ _ _ _ (fun a ha => h a (by simpa using ha))
    (by decide), List.reverse_reverse]

theorem unitOf_MB (s : String) : unitOf (s ++ " MB") = "MB" :=
  unitOf_space_append s ['M', 'B'] (by decide)

theorem unitOf_GB (s : String) : unitOf (s ++ " GB") = "GB" :=
  unitOf_space_append s ['G', 'B'] (by decide)

theorem unitOf_TB (s : String) : unitOf (s ++ " TB") = "TB" :=
  unitOf_space_append s ['T', 'B'] (by decide)

theorem unitOf_PB (s : String) : unitOf (s ++ " PB") = "PB" :=
  unitOf_space_append s ['P', 'B'] (by decide)

/-- C10: every byte size strictly below `1 MiB = 1048576` takes the first
branch of `format_bytes`, which renders `size / 1024` to two decimals and —
as the source literally does — labels it `"MB"`; and for every input the
unit suffix is one of `MB`, `GB`, `TB`, `PB`, so no input ever yields a
`"KB"` or bare `"B"` unit. -/
theorem c10_format_bytes_unit (size : Nat) :
    (size < 1048576 → format_bytes size = fmt2dec size 1024 ++ " MB") ∧
    (unitOf (format_bytes size) = "MB" ∨ unitOf (format_bytes size) = "GB" ∨
      unitOf (format_bytes size) = "TB" ∨ unitOf (format_bytes size) = "PB") ∧
    unitOf (format_bytes size) ≠ "KB" ∧ unitOf (format_bytes size) ≠ "B" := by
  have hunit : unitOf (format_bytes size) = "MB" ∨
      unitOf (format_bytes size) = "GB" ∨
      unitOf (format_bytes size) = "TB" ∨
      unitOf (format_bytes size) = "PB" := by
    unfold format_bytes
    split_ifs <;>
      simp [unitOf_MB, unitOf_GB, unitOf_TB, unitOf_PB]
  refine ⟨fun h => by simp [format_bytes, h], hunit, ?_, ?_⟩
  · rcases hunit with h | h | h | h <;> rw [h] <;> decide
  · rcases hunit with h | h | h | h <;> rw [h] <;> decide

/-- Witness for C10 at `size = 512`: below 1 MiB, the first branch fires and
renders `"0.50 MB"`, as the claim's example requires. -/
theorem c10_format_bytes_unit_witness :
    format_bytes 512 = fmt2dec 512 1024 ++ " MB" ∧ format_bytes 512 = "0.50 MB" :=
  ⟨(c10_format_bytes_unit 512).1 (by decide), by decide⟩


/-! ## Claim C9: rendering is total on ragged rows -/

theorem le_foldl_max (l : List Nat) (a : Nat) : a ≤ l.foldl Nat.max a := by
  induction l generalizing a with
  | nil => simp
  | cons x xs ih => exact le_trans (Nat.le_max_left a x) (ih (Nat.max a x))

theorem mem_le_foldl_max (l : List Nat) :
    ∀ a b : Nat, b ∈ l → b ≤ l.foldl Nat.max a := by
  induction l with
  | nil => intro a b hb; cases hb
  | cons x xs ih =>
    intro a b hb
    rcases List.mem_cons.mp hb with rfl | h
    · exact le_trans (Nat.le_max_right a b) (le_foldl_max xs _)
    · exact ih (Nat.max a x) b h

theorem cols_length_le_maxCols (rows : List (String × List StatusEntry))
    (e : StatusEntry) (cols : List String) (he : e ∈ allEntries rows)
    (hc : e.cols = some cols) : cols.length ≤ maxCols rows :=
  mem_le_foldl_max _ 0 _ (List.mem_filterMap.mpr ⟨e, he, by simp [hc]⟩)

theorem mem_allEntries (rows : List (String × List StatusEntry))
    (kv : String × List StatusEntry) (e : StatusEntry)
    (hkv : kv ∈ rows) (he : e ∈ kv.2) : e ∈ allEntries rows := by
  unfold allEntries
  exact List.mem_flatten.mpr ⟨kv.2, List.mem_map_of_mem Prod.snd hkv, he⟩

theorem updWidths_some (cols : List String) :
    ∀ (acc : List Nat) (i : Nat), i + cols.length ≤ acc.length →
      ∃ acc', updWidths acc i cols = some acc' ∧ acc'.length = acc.length := by
  induction cols with
  | nil => exact fun acc i _ => ⟨acc, rfl, rfl⟩
  | cons c rest ih =>
    intro acc i h
    have hi : i < acc.length := by simp only [List.length_cons] at h; omega
    obtain ⟨v, hget⟩ : ∃ v, acc.get? i = some v := ⟨_, List.get?_eq_get hi⟩
    obtain ⟨acc', h1, h2⟩ := ih (acc.set i (Nat.max v (dispWidth c))) (i + 1)
      (by simp only [List.length_set, List.length_cons] at h ⊢; omega)
    refine ⟨acc', ?_, by rw [h2, List.length_set]⟩
    simp only [updWidths, hget]
    exact h1

theorem widthsFold_some (entries : List StatusEntry) :
    ∀ acc : List Nat,
      (∀ e cols, e ∈ entries → e.cols = some cols → cols.length ≤ acc.length) →
      ∃ acc',
        entries.foldlM
          (fun acc e =>
            match e.cols with
            | some cols => updWidths acc 0 cols
            | none => some acc) acc = some acc' ∧
        acc'.length = acc.length := by
  induction entries with
  | nil => exact fun acc _ => ⟨acc, rfl, rfl⟩
  | cons e rest ih =>
    intro acc h
    cases hc : e.cols with
    | none =>
      obtain ⟨acc', h1, h2⟩ := ih acc
        (fun e' cols he' hcols => h e' cols (List.mem_cons_of_mem _ he') hcols)
      exact ⟨acc', by simp only [List.foldlM_cons, hc]; simpa using h1, h2⟩
    | some cols =>
      have hlen : cols.length ≤ acc.length := h e cols (by simp) hc
      obtain ⟨acc1, hu, hl1⟩ := updWidths_some cols acc 0 (by omega)
      obtain ⟨acc', h1, h2⟩ := ih acc1
        (fun e' cols' he' hcols' =>
          hl1 ▸ h e' cols' (List.mem_cons_of_mem _ he') hcols')
      refine ⟨acc', ?_, by rw [h2, hl1]⟩
      simp only [List.foldlM_cons, hc, hu]
      simpa using h1

theorem computeWidths_some (rows : List (String × List StatusEntry)) :
    ∃ ws, computeWidthsAll rows = some ws ∧ ws.length = maxCols rows := by
  obtain ⟨ws, h1, h2⟩ := widthsFold_some (allEntries rows)
    (List.replicate (maxCols rows) 0)
    (fun e cols he hc => by
      simpa using cols_length_le_maxCols rows e cols he hc)
  exact ⟨ws, h1, by simpa using h2⟩

theorem buildCells_some (lead : Bool) (cols : List String) :
    ∀ (widths : List Nat) (i : Nat), i + cols.length ≤ widths.length →
      ∃ cells, buildCells lead widths i cols = some cells ∧
        cells.length = cols.length := by
  induction cols with
  | nil => exact fun widths i _ => ⟨[], rfl, rfl⟩
  | cons c rest ih =>
    intro widths i h
    have hi : i < widths.length := by simp only [List.length_cons] at h; omega
    obtain ⟨w, hget⟩ : ∃ w, widths.get? i = some w := ⟨_, List.get?_eq_get hi⟩
    obtain ⟨cells, h1, h2⟩ := ih widths (i + 1)
      (by simp only [List.length_cons] at h; omega)
    refine ⟨((if lead ∧ i = 0 then " " else "") ++ padCell c w) :: cells, ?_,
      by simp [h2]⟩
    simp only [buildCells, hget, h1]

theorem rowLineStatus_isSome (ws : List Nat) (ns ind : Nat) (e : StatusEntry)
    (h : ∀ cols, e.cols = some cols → cols.length ≤ ws.length) :
    (rowLineStatus ws ns ind e).isSome := by
  cases hc : e.cols with
  | none => simp [rowLineStatus, hc]
  | some cols =>
    obtain ⟨cells, h1, _⟩ := buildCells_some true cols ws 0
      (by simpa using h cols hc)
    simp [rowLineStatus, hc, h1]

theorem mapO_isSome {α β : Type} (f : α → Option β) :
    ∀ l : List α, (∀ a ∈ l, (f a).isSome) → (mapO f l).isSome := by
  intro l
  induction l with
  | nil => exact fun _ => by simp [mapO]
  | cons a rest ih =>
    intro h
    obtain ⟨b, hb⟩ := Option.isSome_iff_exists.mp (h a (by simp))
    obtain ⟨r, hr⟩ := Option.isSome_iff_exists.mp (ih fun x hx => h x (by simp [hx]))
    simp [mapO, hb, hr]

theorem renderGroupStatus_isSome (ws : List Nat) (ns ind : Nat) (color : Bool)
    (kv : String × List StatusEntry)
    (h : ∀ e ∈ kv.2, ∀ cols, e.cols = some cols → cols.length ≤ ws.length) :
    (renderGroupStatus ws ns ind color kv).isSome := by
  obtain ⟨lines, hl⟩ := Option.isSome_iff_exists.mp
    (mapO_isSome (rowLineStatus ws ns ind) kv.2
      (fun e he => rowLineStatus_isSome ws ns ind e (fun cols hc => h e he cols hc)))
  simp [renderGroupStatus, hl]

/-- C9: for every input — in particular inputs whose entries have differing
numbers of display columns, or `None` cols — `print_fixed_width_status`
completes without failure (the model never returns `none`, i.e. no
out-of-bounds `max_lengths[i]` access occurs), and a row with fewer columns
than the group-wide maximum produces exactly one rendered cell per column it
actually has: trailing cells are omitted, not padded with placeholders. -/
theorem c9_render_ragged_rows_safe (rows : List (String × List StatusEntry))
    (nspaces indent : Option Nat) (color : Bool) (e : StatusEntry)
    (cols : List String) (hmem : e ∈ allEntries rows)
    (hcols : e.cols = some cols) :
    (∃ out, printFixedWidthStatus rows nspaces indent color = some out) ∧
    (∃ ws cells, computeWidthsAll rows = some ws ∧
      buildCells true ws 0 cols = some cells ∧ cells.length = cols.length) := by
  obtain ⟨ws, hws, hlen⟩ := computeWidths_some rows
  have hbound : ∀ e' ∈ allEntries rows, ∀ cols', e'.cols = some cols' →
      cols'.length ≤ ws.length :=
    fun e' he' cols' hc' => hlen ▸ cols_length_le_maxCols rows e' cols' he' hc'
  constructor
  · obtain ⟨sections, hsec⟩ := Option.isSome_iff_exists.mp
      (mapO_isSome (renderGroupStatus ws (nspaces.getD 6) (indent.getD 0) color)
        rows
        (fun kv hkv => renderGroupStatus_isSome ws _ _ color kv
          (fun e' he' cols' hc' =>
            hbound e' (mem_allEntries rows kv e' hkv he') cols' hc')))
    exact ⟨sections.flatten, by simp [printFixedWidthStatus, hws, hsec]⟩
  · obtain ⟨cells, h1, h2⟩ := buildCells_some true cols ws 0
      (by simpa using hbound e hmem cols hcols)
    exact ⟨ws, cells, hws, h1, h2⟩

/-- Witness for C9 on a group mixing a two-column row, a one-column row and a
`None`-cols row: rendering succeeds and the one-column row gets exactly one
cell. -/
theorem c9_render_ragged_rows_safe_witness :
    (∃ out, printFixedWidthStatus [("d", [entryTwoCols, entryOneCol, entryNoCols])]
        none none true = some out) ∧
    (∃ ws cells,
      computeWidthsAll [("d", [entryTwoCols, entryOneCol, entryNoCols])] = some ws ∧
      buildCells true ws 0 ["d/b"] = some cells ∧
      cells.length = (["d/b"] : List String).length) :=
  c9_render_ragged_rows_safe [("d", [entryTwoCols, entryOneCol, entryNoCols])]
    none none true entryOneCol ["d/b"] (by decide) rfl

/-! ## Claim C7: remote-name merging -/

theorem lookupAL_btreeInsert_self (m : List (String × List StatusEntry))
    (k : String) (v : List StatusEntry) :
    lookupAL (btreeInsert m k v) k = some v := by
  induction m with
  | nil => simp [btreeInsert, lookupAL]
  | cons kv rest ih =>
    obtain ⟨k', v'⟩ := kv
    by_cases h1 : k = k'
    · simp [btreeInsert, h1, lookupAL]
    · by_cases h2 : k < k'
      · simp [btreeInsert, h1, h2, lookupAL]
      · simp [btreeInsert, h1, h2, lookupAL, ih]

theorem lookupAL_btreeInsert_ne (m : List (String × List StatusEntry))
    (k : String) (v : List StatusEntry) (K : String) (hK : K ≠ k) :
    lookupAL (btreeInsert m k v) K = lookupAL m K := by
  induction m with
  | nil => simp [btreeInsert, lookupAL, hK]
  | cons kv rest ih =>
    obtain ⟨k', v'⟩ := kv
    by_cases h1 : k = k'
    · subst h1
      simp [btreeInsert, lookupAL, hK]
    · by_cases h2 : k < k'
      · simp [btreeInsert, h1, h2, lookupAL, hK]
      · by_cases h3 : K = k'
        · simp [btreeInsert, h1, h2, lookupAL, h3]
        · simp [btreeInsert, h1, h2, lookupAL, h3, ih]

theorem lookupAL_foldl_insert_of_ne (f : String → String)
    (l : List (String × List StatusEntry)) :
    ∀ (acc : List (String × List StatusEntry)) (K : String),
      (∀ kv ∈ l, f kv.1 ≠ K) →
      lookupAL (l.foldl (fun acc kv => btreeInsert acc (f kv.1) kv.2) acc) K =
        lookupAL acc K := by
  induction l with
  | nil => intro acc K _; rfl
  | cons kv rest ih =>
    intro acc K h
    rw [List.foldl_cons,
      ih _ K (fun kv' h' => h kv' (List.mem_cons_of_mem _ h'))]
    exact lookupAL_btreeInsert_ne _ _ _ _ (h kv (by simp)).symm

theorem lookupAL_foldl_insert_mem (f : String → String)
    (l : List (String × List StatusEntry)) :
    ∀ (acc : List (String × List StatusEntry)) (k : String)
      (v : List StatusEntry), (k, v) ∈ l →
      (l.map fun kv => f kv.1).Nodup →
      lookupAL (l.foldl (fun acc kv => btreeInsert acc (f kv.1) kv.2) acc)
        (f k) = some v := by
  induction l with
  | nil => intro acc k v h _; cases h
  | cons kv rest ih =>
    intro acc k v hmem hnodup
    rw [List.foldl_cons]
    rcases List.mem_cons.mp hmem with heq | hmem'
    · have hhead := (List.nodup_cons.mp hnodup).1
      have hrest : ∀ kv' ∈ rest, f kv'.1 ≠ f k := by
        intro kv' h' hEq
        apply hhead
        show f kv.1 ∈ rest.map fun kv => f kv.1
        rw [← heq]
        exact hEq ▸ List.mem_map_of_mem _ h'
      rw [lookupAL_foldl_insert_of_ne f rest _ (f k) hrest, ← heq]
      exact lookupAL_btreeInsert_self acc (f k) v
    · exact ih _ k v hmem' (List.nodup_cons.mp hnodup).2

/-- C7: when a remote mapping is supplied, `print_status` re-inserts every
group whose key has a matching remote under `"<key> > <remote-name>"` with
its entry list unchanged, and every group with no matching remote under its
original key unchanged; without a remote mapping the organized map is passed
through as-is.  The hypothesis `hinj` rules out rewritten-key collisions, in
which case the source's `BTreeMap::insert` is last-write-wins. -/
theorem c7_remote_merge_rewrites_keys
    (organized : List (String × List StatusEntry))
    (rm : List (String × Remote)) (k : String) (v : List StatusEntry)
    (hinj : (organized.map fun kv => rewriteKey rm kv.1).Nodup)
    (hmem : (k, v) ∈ organized) :
    (∀ r, lookupAL rm k = some r →
      lookupAL (statusGroups organized (some rm)) (k ++ " > " ++ r.name) =
        some v) ∧
    (lookupAL rm k = none →
      lookupAL (statusGroups organized (some rm)) k = some v) ∧
    statusGroups organized none = organized := by
  have hbase : lookupAL (statusGroups organized (some rm))
      (rewriteKey rm k) = some v := by
    unfold statusGroups
    exact lookupAL_foldl_insert_mem (rewriteKey rm) organized [] k v hmem hinj
  refine ⟨?_, ?_, rfl⟩
  · intro r hr
    have h : rewriteKey rm k = k ++ " > " ++ r.name := by
      simp [rewriteKey, hr]
    rwa [h] at hbase
  · intro hr
    have h : rewriteKey rm k = k := by simp [rewriteKey, hr]
    rwa [h] at hbase

/-- Witness for C7: the group `"data"` with the remote mapping
`{"data" ↦ Remote "s3-bucket"}` ends up under the key
`"data > s3-bucket"` with its entries unchanged, so the rendered header is
`"[data > s3-bucket]"`. -/
theorem c7_remote_merge_rewrites_keys_witness :
    lookupAL (statusGroups [("data", [entryData])]
        (some [("data", Remote.mk "s3-bucket")])) "data > s3-bucket" =
      some [entryData] := by
  have h := (c7_remote_merge_rewrites_keys [("data", [entryData])]
    [("data", Remote.mk "s3-bucket")] "data" [entryData]
    (by decide) (by decide)).1 (Remote.mk "s3-bucket") (by decide)
  have heq : "data" ++ " > " ++ (Remote.mk "s3-bucket").name =
      "data > s3-bucket" := by decide
  rwa [heq] at h

/-! ## Claim C3 (amended): grouping of bare filenames under the empty key -/

theorem splitSegs_no_sep (l : List Char) (h : ∀ ch ∈ l, ch ≠ '/') :
    splitSegs l = [l] := by
  induction l with
  | nil => rfl
  | cons c rest ih =>
    have hc : c ≠ '/' := h c (by simp)
    simp only [splitSegs,
      ih fun ch hch => h ch (List.mem_cons_of_mem _ hch), if_neg hc]

theorem pathParent_no_sep (c : String) (hne : c.data ≠ [])
    (hsep : ∀ ch ∈ c.data, ch ≠ '/') : pathParent c = some "" := by
  have hss : splitSegs c.data = [c.data] := splitSegs_no_sep c.data hsep
  have hroot : ¬ c.data.head? = some '/' := by
    cases hd : c.data with
    | nil => simp
    | cons ch rest =>
      have hch : ch ≠ '/' := hsep ch (by rw [hd]; exact List.mem_cons_self _ _)
      simp [hch]
  have hraw : (List.filter (fun seg => decide (seg ≠ [])) [c.data]) =
      [c.data] := by
    simp [List.filter_cons, hne]
  unfold pathParent
  simp only [hss, if_neg hroot, hraw]
  by_cases hdot : c.data = ['.']
  · simp only [hdot]
    simp
    rfl
  · simp only [if_neg hdot]
    simp [hne, List.filter_cons, hdot]
    rfl

theorem lookupAL_none_of_ne {α : Type} (m : List (String × α)) (K : String)
    (h : ∀ b ∈ m, K ≠ b.1) : lookupAL m K = none := by
  induction m with
  | nil => rfl
  | cons kv rest ih =>
    obtain ⟨k', v⟩ := kv
    have hK : K ≠ k' := h (k', v) (by simp)
    simp only [lookupAL, if_neg hK]
    exact ih fun b hb => h b (List.mem_cons_of_mem _ hb)

theorem mem_keys_btreeInsertAppend (m : List (String × List StatusEntry))
    (k : String) (e : StatusEntry) :
    ∀ b ∈ btreeInsertAppend m k e, b.1 = k ∨ b ∈ m := by
  induction m with
  | nil =>
    intro b hb
    simp only [btreeInsertAppend, List.mem_singleton] at hb
    exact Or.inl (by rw [hb])
  | cons kv rest ih =>
    obtain ⟨k', v⟩ := kv
    intro b hb
    by_cases h1 : k = k'
    · simp only [btreeInsertAppend, if_pos h1, List.mem_cons] at hb
      rcases hb with rfl | hb
      · exact Or.inl h1.symm
      · exact Or.inr (List.mem_cons_of_mem _ hb)
    · by_cases h2 : k < k'
      · simp only [btreeInsertAppend, if_neg h1, if_pos h2, List.mem_cons] at hb
        rcases hb with rfl | hb
        · exact Or.inl rfl
        · exact Or.inr (List.mem_cons.mpr hb)
      · simp only [btreeInsertAppend, if_neg h1, if_neg h2, List.mem_cons] at hb
        rcases hb with rfl | hb
        · exact Or.inr (by simp)
        · rcases ih b hb with h | h
          · exact Or.inl h
          · exact Or.inr (List.mem_cons_of_mem _ h)

theorem btreeInsertAppend_sorted (m : List (String × List StatusEntry))
    (k : String) (e : StatusEntry)
    (hs : m.Pairwise fun a b => a.1 < b.1) :
    (btreeInsertAppend m k e).Pairwise fun a b => a.1 < b.1 := by
  induction m with
  | nil => simp [btreeInsertAppend]
  | cons kv rest ih =>
    obtain ⟨k', v⟩ := kv
    obtain ⟨hhead, htail⟩ := List.pairwise_cons.mp hs
    by_cases h1 : k = k'
    · simp only [btreeInsertAppend, if_pos h1]
      exact List.pairwise_cons.mpr ⟨hhead, htail⟩
    · by_cases h2 : k < k'
      · simp only [btreeInsertAppend, if_neg h1, if_pos h2]
        refine List.pairwise_cons.mpr ⟨?_, hs⟩
        intro b hb
        rcases List.mem_cons.mp hb with rfl | hb'
        · exact h2
        · exact lt_trans h2 (hhead b hb')
      · simp only [btreeInsertAppend, if_neg h1, if_neg h2]
        refine List.pairwise_cons.mpr ⟨?_, ih htail⟩
        intro b hb
        have hk'k : k' < k :=
          lt_of_le_of_ne (not_lt.mp h2) fun hEq => h1 hEq.symm
        rcases mem_keys_btreeInsertAppend rest k e b hb with hbk | hbm
        · rw [hbk]; exact hk'k
        · exact hhead b hbm

theorem lookupAL_insertAppend_self (m : List (String × List StatusEntry))
    (k : String) (e : StatusEntry)
    (hs : m.Pairwise fun a b => a.1 < b.1) :
    lookupAL (btreeInsertAppend m k e) k =
      some ((lookupAL m k).getD [] ++ [e]) := by
  induction m with
  | nil => simp [btreeInsertAppend, lookupAL]
  | cons kv rest ih =>
    obtain ⟨k', v⟩ := kv
    obtain ⟨hhead, htail⟩ := List.pairwise_cons.mp hs
    by_cases h1 : k = k'
    · subst h1
      simp [btreeInsertAppend, lookupAL]
    · by_cases h2 : k < k'
      · have hnone : lookupAL rest k = none := by
          apply lookupAL_none_of_ne
          intro b hb'
          exact ne_of_lt (lt_trans h2 (hhead b hb'))
        simp [btreeInsertAppend, h1, h2, lookupAL, hnone]
      · simp [btreeInsertAppend, h1, h2, lookupAL, ih htail]

theorem lookupAL_insertAppend_ne (m : List (String × List StatusEntry))
    (k : String) (e : StatusEntry) (K : String) (hK : K ≠ k) :
    lookupAL (btreeInsertAppend m k e) K = lookupAL m K := by
  induction m with
  | nil => simp [btreeInsertAppend, lookupAL, hK]
  | cons kv rest ih =>
    obtain ⟨k', v⟩ := kv
    by_cases h1 : k = k'
    · subst h1
      simp [btreeInsertAppend, lookupAL, hK]
    · by_cases h2 : k < k'
      · simp [btreeInsertAppend, h1, h2, lookupAL, hK]
      · by_cases h3 : K = k'
        · simp [btreeInsertAppend, h1, h2, lookupAL, h3]
        · simp [btreeInsertAppend, h1, h2, lookupAL, h3, ih]

theorem orgStep_sorted (m : List (String × List StatusEntry)) (x : StatusEntry)
    (hs : m.Pairwise fun a b => a.1 < b.1) :
    (orgStep m x).Pairwise fun a b => a.1 < b.1 := by
  cases hx : x.cols with
  | none => simpa [orgStep, hx] using hs
  | some cols =>
    cases cols with
    | nil => simpa [orgStep, hx] using hs
    | cons f rest =>
      cases hp : pathParent f with
      | none => simpa [orgStep, hx, hp] using hs
      | some dir =>
        simpa [orgStep, hx, hp] using btreeInsertAppend_sorted m dir x hs

theorem orgStep_preserves_mem (m : List (String × List StatusEntry))
    (x e : StatusEntry) (hs : m.Pairwise fun a b => a.1 < b.1)
    (hmem : e ∈ (lookupAL m "").getD []) :
    e ∈ (lookupAL (orgStep m x) "").getD [] := by
  cases hx : x.cols with
  | none => simpa [orgStep, hx] using hmem
  | some cols =>
    cases cols with
    | nil => simpa [orgStep, hx] using hmem
    | cons f rest =>
      cases hp : pathParent f with
      | none => simpa [orgStep, hx, hp] using hmem
      | some dir =>
        have hstep : orgStep m x = btreeInsertAppend m dir x := by
          simp [orgStep, hx, hp]
        rw [hstep]
        by_cases hd : dir = ""
        · subst hd
          rw [lookupAL_insertAppend_self m "" x hs]
          simpa using Or.inl hmem
        · rw [lookupAL_insertAppend_ne m dir x "" fun h => hd h.symm]
          exact hmem

theorem orgFold_preserves_mem (entries : List StatusEntry) :
    ∀ m, (m.Pairwise fun a b => a.1 < b.1) →
      ∀ e, e ∈ (lookupAL m "").getD [] →
        e ∈ (lookupAL (entries.foldl orgStep m) "").getD [] := by
  induction entries with
  | nil => exact fun m _ e h => h
  | cons x xs ih =>
    intro m hs e h
    rw [List.foldl_cons]
    exact ih (orgStep m x) (orgStep_sorted m x hs) e
      (orgStep_preserves_mem m x e hs h)

theorem orgFold_bare_mem (entries : List StatusEntry) :
    ∀ m, (m.Pairwise fun a b => a.1 < b.1) →
      ∀ e c crest, e ∈ entries → e.cols = some (c :: crest) →
        pathParent c = some "" →
        e ∈ (lookupAL (entries.foldl orgStep m) "").getD [] := by
  induction entries with
  | nil => intro m _ e c crest h _ _; cases h
  | cons x xs ih =>
    intro m hs e c crest hmem hcols hpp
    rw [List.foldl_cons]
    rcases List.mem_cons.mp hmem with rfl | hmem'
    · have hstep : orgStep m e = btreeInsertAppend m "" e := by
        unfold orgStep
        simp [hcols, hpp]
      rw [hstep]
      apply orgFold_preserves_mem xs (btreeInsertAppend m "" e)
        (btreeInsertAppend_sorted m "" e hs) e
      rw [lookupAL_insertAppend_self m "" e hs]
      simp
    · exact ih (orgStep m x) (orgStep_sorted m x hs) e c crest hmem' hcols hpp

/-- C3, amended: an entry whose first display column is a non-empty bare
filename (no `/` separator) is *not* dropped by `organize_by_dir`: its
parent per Rust's `Path::parent` is `Some("")`, so the entry is grouped
under the empty-string key.  (Only entries with absent `cols`, an empty
`cols` vector, or a first column whose `parent()` is `None` — the empty
string and root-only paths — are dropped.) -/
theorem c3_bare_filename_grouped_under_empty_key (entries : List StatusEntry)
    (e : StatusEntry) (c : String) (crest : List String)
    (hmem : e ∈ entries) (hcols : e.cols = some (c :: crest))
    (hne : c.data ≠ []) (hsep : ∀ ch ∈ c.data, ch ≠ '/') :
    pathParent c = some "" ∧
    e ∈ (lookupAL (organize_by_dir entries) "").getD [] := by
  have hpp : pathParent c = some "" := pathParent_no_sep c hne hsep
  refine ⟨hpp, ?_⟩
  unfold organize_by_dir
  exact orgFold_bare_mem entries [] (by simp) e c crest hmem hcols hpp

/-- Witness for the amended C3 at the concrete entry with first column
`"data.csv"`. -/
theorem c3_bare_filename_grouped_under_empty_key_witness :
    pathParent "data.csv" = some "" ∧
    entryBare ∈ (lookupAL (organize_by_dir [entryBare]) "").getD [] :=
  c3_bare_filename_grouped_under_empty_key [entryBare] entryBare "data.csv" []
    (by decide) rfl (by decide) (by decide)
